import Mathlib

/-!
# Verification of the RISC OS font-control engine (`control.py`)

Shallow embedding of the repository's `control.py`:

* the colour state machine of `FontContext` (`select_colour`,
  `_gcol_updated`, `_rgb_updated`, `saturate`, the default
  `gcol_to_rgb` / `rgb_to_gcol` hooks);
* the byte-stream parser `FontControlParser` (`read_byte`, `read_word`,
  `read_matrix`, `align`, `step_back`, `parse`);
* the spacing expander `FontControlSequence._apply_splits` /
  `apply_spacing`;
* the sizing walk `FontContext.size` with its `beyond_limits` check.

Python integers are embedded as `Int`/`Nat`; coordinates, which in the
source mix ints and floats, are embedded as `ℚ` (the float operations
reached by the modelled paths — 16.16 fixed-point division by `65536.0`,
`y1 / 256.0`, additions and comparisons of such values — are exact in
IEEE doubles for the ranges produced by the parser, so `ℚ` is faithful).

The geometry primitives `Matrix` and `Bounds` come from
`riscos.graphics.structs`, which is not among the repository's source
files; they are modelled from the spec where noted.
-/

namespace RO

/-- `FontContext.saturate` (control.py:202): `max(min(value, vmax), vmin)`. -/
def saturate (value vmin vmax : Int) : Int :=
  max (min value vmax) vmin

/-! ### Kernel-computable rational arithmetic

The geometry below works over `ℚ`.  The library's `Rat.add`, `Rat.mul`
and `Rat.div` are compiled functions that do not reduce inside the
kernel, which would leave concrete runs of the sizing walk unverifiable
by `decide`; `qmk`, `qadd`, `qmul` and `qdivN` build the same values
through `Nat.gcd` (which does reduce) and are proved equal to the `ℚ`
operations (`qadd_eq`, `qmul_eq`, `qdivN_eq`). -/

/-- The rational `n / d` for `d ≠ 0`, built by explicit
gcd-normalisation. -/
def qmk (n : Int) (d : Nat) (hd : d ≠ 0) : ℚ :=
  ⟨n / (n.natAbs.gcd d : Int), d / n.natAbs.gcd d,
   Nat.ne_of_gt (Nat.div_pos
     (Nat.le_of_dvd (Nat.pos_of_ne_zero hd) (Nat.gcd_dvd_right _ _))
     (Nat.gcd_pos_of_pos_right _ (Nat.pos_of_ne_zero hd))),
   by
     have hg : 0 < n.natAbs.gcd d := Nat.gcd_pos_of_pos_right _ (Nat.pos_of_ne_zero hd)
     have hdvd : ((n.natAbs.gcd d : Nat) : Int) ∣ n := by
      have h1 : (n.natAbs.gcd d : Int) ∣ (n.natAbs : Int) :=
        Int.natCast_dvd_natCast.2 (Nat.gcd_dvd_left _ _)
      exact Int.natAbs_dvd.mp (Int.dvd_natAbs.mp h1)
     have habs : (n / ((n.natAbs.gcd d : Nat) : Int)).natAbs = n.natAbs / n.natAbs.gcd d := by
       rw [Int.natAbs_ediv n _ hdvd]
       simp
     rw [habs]
     exact Nat.coprime_div_gcd_div_gcd hg⟩

theorem qmk_eq_divInt (n : Int) (d : Nat) (hd : d ≠ 0) :
    qmk n d hd = Rat.divInt n (d : Int) := by
  unfold qmk
  rw [Rat.mk'_eq_divInt]
  set g := n.natAbs.gcd d with hgdef
  obtain ⟨n', hn⟩ : (g : Int) ∣ n := by
    have h1 : (g : Int) ∣ (n.natAbs : Int) :=
      Int.natCast_dvd_natCast.2 (hgdef ▸ Nat.gcd_dvd_left _ _)
    exact Int.natAbs_dvd.mp (Int.dvd_natAbs.mp h1)
  obtain ⟨d', hdd⟩ : g ∣ d := hgdef ▸ Nat.gcd_dvd_right _ _
  have hg : 0 < g := hgdef ▸ Nat.gcd_pos_of_pos_right _ (Nat.pos_of_ne_zero hd)
  have hgz : (g : Int) ≠ 0 := by exact_mod_cast hg.ne'
  rw [hn, hdd, Int.mul_ediv_cancel_left _ hgz, Nat.mul_div_cancel_left _ hg]
  rw [show ((g * d' : Nat) : Int) = (d' : Int) * (g : Int) by push_cast; ring,
      show (g : Int) * n' = n' * (g : Int) from mul_comm _ _,
      Rat.divInt_mul_right hgz]

theorem qmk_eq (n : Int) (d : Nat) (hd : d ≠ 0) :
    qmk n d hd = (n : ℚ) / (d : ℚ) := by
  rw [qmk_eq_divInt, Rat.divInt_eq_div]
  norm_cast

/-- Addition on `ℚ`, kernel-computable (`qadd_eq`). -/
def qadd (a b : ℚ) : ℚ :=
  qmk (a.num * (b.den : Int) + b.num * (a.den : Int)) (a.den * b.den)
    (Nat.mul_ne_zero a.den_nz b.den_nz)

/-- Multiplication on `ℚ`, kernel-computable (`qmul_eq`). -/
def qmul (a b : ℚ) : ℚ :=
  qmk (a.num * b.num) (a.den * b.den) (Nat.mul_ne_zero a.den_nz b.den_nz)

/-- Division of a rational by a non-zero natural, kernel-computable
(`qdivN_eq`). -/
def qdivN (a : ℚ) (d : Nat) (hd : d ≠ 0) : ℚ :=
  qmk a.num (a.den * d) (Nat.mul_ne_zero a.den_nz hd)

theorem qadd_eq (a b : ℚ) : qadd a b = a + b := by
  unfold qadd
  have ha : ((a.den : Int)) ≠ 0 := by exact_mod_cast a.den_nz
  have hb : ((b.den : Int)) ≠ 0 := by exact_mod_cast b.den_nz
  rw [qmk_eq_divInt, show ((a.den * b.den : Nat) : Int) = (a.den : Int) * (b.den : Int) by
        push_cast; ring,
      ← Rat.divInt_add_divInt _ _ ha hb, Rat.num_divInt_den, Rat.num_divInt_den]

theorem qmul_eq (a b : ℚ) : qmul a b = a * b := by
  unfold qmul
  rw [qmk_eq_divInt, show ((a.den * b.den : Nat) : Int) = (a.den : Int) * (b.den : Int) by
        push_cast; ring,
      ← Rat.divInt_mul_divInt', Rat.num_divInt_den, Rat.num_divInt_den]

theorem qdivN_eq (a : ℚ) (d : Nat) (hd : d ≠ 0) : qdivN a d hd = a / (d : ℚ) := by
  unfold qdivN
  rw [qmk_eq]
  push_cast
  rw [div_mul_eq_div_div, Rat.num_div_den]

/-- Modelled from the spec: the 2×3 affine transform of
`riscos.graphics.structs.Matrix` (missing from `src/`): entries
`(a b / c d)` scale/shear and `(e, f)` translate; constructors produce
the identity. -/
structure Matrix where
  a : ℚ := 1
  b : ℚ := 0
  c : ℚ := 0
  d : ℚ := 1
  e : ℚ := 0
  f : ℚ := 0
deriving DecidableEq

/-- Modelled from the spec: a transform is identity-like (falsy) iff
`a = d = 1` and `b = c = e = f = 0`. -/
def Matrix.isTruthy (m : Matrix) : Bool :=
  decide (m ≠ Matrix.mk 1 0 0 1 0 0)

/-- Modelled from the spec: point application
`(x, y) → (a·x + c·y + e, b·x + d·y + f)` (via the kernel-computable
`qadd`/`qmul`, which equal `+`/`*` on `ℚ`). -/
def Matrix.applyPt (m : Matrix) (x y : ℚ) : ℚ × ℚ :=
  (qadd (qadd (qmul m.a x) (qmul m.c y)) m.e,
   qadd (qadd (qmul m.b x) (qmul m.d y)) m.f)

/-- Modelled from the spec: bounding-box application — transform the four
corners and return their axis-aligned envelope. -/
def Matrix.bbox (m : Matrix) (x0 y0 x1 y1 : ℚ) : ℚ × ℚ × ℚ × ℚ :=
  let p0 := m.applyPt x0 y0
  let p1 := m.applyPt x0 y1
  let p2 := m.applyPt x1 y0
  let p3 := m.applyPt x1 y1
  (min (min p0.1 p1.1) (min p2.1 p3.1),
   min (min p0.2 p1.2) (min p2.2 p3.2),
   max (max p0.1 p1.1) (max p2.1 p3.1),
   max (max p0.2 p1.2) (max p2.2 p3.2))

/-- Modelled from the spec: the axis-aligned bounds accumulator of
`riscos.graphics.structs.Bounds` (missing from `src/`): an empty bound or
a rectangle. -/
inductive Bounds where
  | empty : Bounds
  | rect (x0 y0 x1 y1 : ℚ) : Bounds
deriving DecidableEq

/-- Modelled from the spec: union of a bound with a 4-tuple of
coordinates (two corner points); empty is the identity of union. -/
def Bounds.union4 : Bounds → ℚ → ℚ → ℚ → ℚ → Bounds
  | .empty, x0, y0, x1, y1 =>
      .rect (min x0 x1) (min y0 y1) (max x0 x1) (max y0 y1)
  | .rect a b c d, x0, y0, x1, y1 =>
      .rect (min a (min x0 x1)) (min b (min y0 y1))
            (max c (max x0 x1)) (max d (max y0 y1))

/-- The `(xleft, ybottom, xright, ytop, xoffset, yoffset)` tuple returned
by `font_bounds` and the per-record `size` methods. -/
structure SizeInfo where
  xl : ℚ
  yb : ℚ
  xr : ℚ
  yt : ℚ
  xo : ℚ
  yo : ℚ
deriving DecidableEq

/-- The host-replaceable hooks of `FontContext` (control.py:85-93):
`gcol_to_rgb`, `rgb_to_gcol` and `font_bounds`. -/
structure Hooks where
  gcolToRgb : Int → Int
  rgbToGcol : Int → Int
  fontBounds : Option (List Nat) → SizeInfo

/-- `FontContext.gcol_to_rgb` (control.py:209): the 1-bit R, G, B stub.
`r = (255<<8) if (gcol & 1) else 0`, `g = (255<<16) if (gcol & 2)`,
`b = (255<<24) if (gcol & 4)`, result `r | g | b | 0x10`.  The bit tests
`gcol & 2^k` are written with floor-division and Euclidean mod (Python's
`&` on arbitrary ints), and the OR of the disjoint summands as addition. -/
def gcol_to_rgb (gcol : Int) : Int :=
  (if gcol.emod 2 ≠ 0 then 255 * 2 ^ 8 else 0) +
  (if (gcol.fdiv 2).emod 2 ≠ 0 then 255 * 2 ^ 16 else 0) +
  (if (gcol.fdiv 4).emod 2 ≠ 0 then 255 * 2 ^ 24 else 0) + 0x10

/-- `FontContext.rgb_to_gcol` (control.py:220):
`((rgb>>15) & 1) | ((rgb>>22) & 2) | ((rgb>>29) & 4)`, i.e. bits 15, 23
and 31 of `rgb` packed into bits 0, 1, 2; bit extraction written with
floor-division and Euclidean mod, the disjoint OR as addition. -/
def rgb_to_gcol (rgb : Int) : Int :=
  (rgb.fdiv (2 ^ 15)).emod 2 + 2 * ((rgb.fdiv (2 ^ 23)).emod 2) +
    4 * ((rgb.fdiv (2 ^ 31)).emod 2)

/-- The hooks as implemented by `FontContext` itself: the default colour
converters, and `font_bounds` returning `(0, 0, 0, 0, 0, 0)`
(control.py:320-332). -/
def defaultHooks : Hooks where
  gcolToRgb := gcol_to_rgb
  rgbToGcol := rgb_to_gcol
  fontBounds := fun _ => ⟨0, 0, 0, 0, 0, 0⟩

/-- The mutable state of `FontContext` (control.py:109-145), with the
`__init__` values as defaults.  The `font` object produced by the default
`font_lookup` is represented by its handle. -/
structure FontContext where
  maxcol : Int := 7
  bg : Int := 0
  fgbase : Int := 0
  fgoffset : Int := 0
  fg : Int := 0
  fgpal : Int := 0x10
  bgpal : Int := 0x10
  font_handle : Int := 0
  font : Option Int := none
  underline_pos : ℚ := 0
  underline_thickness : ℚ := 0
  transform : Matrix := {}
  x : ℚ := 0
  y : ℚ := 0
  limitx : Option ℚ := none
  limity : Option ℚ := none
  bounds : Bounds := .empty
deriving DecidableEq

/-- `FontContext._gcol_updated` (control.py:229): saturate `bg` and `fg`
to `[0, maxcol]`, re-derive `fgbase` and `fgoffset`, recompute the RGB
side through `gcol_to_rgb`. -/
def gcol_updated (h : Hooks) (c : FontContext) : FontContext :=
  let bg := saturate c.bg 0 c.maxcol
  let fg := saturate c.fg 0 c.maxcol
  let fgbase := saturate (fg - c.fgoffset) 0 c.maxcol
  let fgoffset := fg - fgbase
  { c with bg := bg, fg := fg, fgbase := fgbase, fgoffset := fgoffset,
           fgpal := h.gcolToRgb fg, bgpal := h.gcolToRgb bg }

/-- `FontContext._rgb_updated` (control.py:242): convert the RGB values
to GCOL values, re-derive `fgbase`, then run `_gcol_updated`. -/
def rgb_updated (h : Hooks) (c : FontContext) : FontContext :=
  let bg := h.rgbToGcol c.bgpal
  let fg := h.rgbToGcol c.fgpal
  let fgbase := fg - c.fgoffset
  gcol_updated h { c with bg := bg, fg := fg, fgbase := fgbase }

/-- `FontContext.select_colour` (control.py:264).  `none` stands for an
omitted keyword argument. -/
def select_colour (h : Hooks) (c : FontContext)
    (bg fg fgoffset bgpal fgpal : Option Int) : FontContext :=
  let gcolChanged := fg.isSome || bg.isSome
  let c := { c with fgbase := fg.getD c.fgbase }
  let c := { c with bg := bg.getD c.bg }
  let c := { c with fgoffset := fgoffset.getD c.fgoffset }
  let c := if gcolChanged || fgoffset.isSome then
             { c with fg := c.fgbase + c.fgoffset } else c
  let c := if gcolChanged then gcol_updated h c else c
  let c := { c with fgpal := fgpal.getD c.fgpal }
  let c := { c with bgpal := bgpal.getD c.bgpal }
  if fgpal.isSome || bgpal.isSome then rgb_updated h c else c

/-- The palette-side colour invariant stated by the spec (§3): `bg`,
`fg`, `fgbase`, `fgoffset` lie in `[0, maxcol]`, with
`fg == saturate(fgbase + fgoffset)` and `fgoffset == fg − fgbase`. -/
abbrev paletteInvariant (c : FontContext) : Prop :=
  0 ≤ c.bg ∧ c.bg ≤ c.maxcol ∧ 0 ≤ c.fg ∧ c.fg ≤ c.maxcol ∧
  0 ≤ c.fgbase ∧ c.fgbase ≤ c.maxcol ∧ 0 ≤ c.fgoffset ∧ c.fgoffset ≤ c.maxcol ∧
  c.fg = saturate (c.fgbase + c.fgoffset) 0 c.maxcol ∧
  c.fgoffset = c.fg - c.fgbase

/-- The postcondition claimed for `select_colour`:
`fg == saturate(fgbase + fgoffset, 0, maxcol)`, `fg ∈ [0, maxcol]` and
`bg ∈ [0, maxcol]`. -/
abbrev colourPost (c : FontContext) : Prop :=
  c.fg = saturate (c.fgbase + c.fgoffset) 0 c.maxcol ∧
  0 ≤ c.fg ∧ c.fg ≤ c.maxcol ∧ 0 ≤ c.bg ∧ c.bg ≤ c.maxcol

theorem gcol_updated_post (h : Hooks) (c : FontContext) (hm : 0 ≤ c.maxcol) :
    colourPost (gcol_updated h c) := by
  unfold colourPost gcol_updated saturate
  simp only [min_def, max_def]
  split_ifs <;> constructor <;> try constructor
  all_goals omega

theorem rgb_updated_post (h : Hooks) (c : FontContext) (hm : 0 ≤ c.maxcol) :
    colourPost (rgb_updated h c) := by
  unfold rgb_updated
  exact gcol_updated_post h _ hm

/-- C1 (counterexample): a context satisfying the palette invariant
(`maxcol = 7`, `fgbase = fg = 7`, `fgoffset = 0`) for which a
`select_colour` call that sets only `fgoffset` leaves
`fg = fgbase + fgoffset = 10`, unsaturated and outside `[0, maxcol]` —
the claimed invariant fails. -/
theorem select_colour_fgoffset_only_counterexample :
    paletteInvariant { maxcol := 7, bg := 0, fgbase := 7, fgoffset := 0, fg := 7 } ∧
    ¬ colourPost (select_colour defaultHooks
        { maxcol := 7, bg := 0, fgbase := 7, fgoffset := 0, fg := 7 }
        none none (some 3) none none) := by
  decide

/-- C1 (amended): after any `select_colour` call that supplies at least
one of `bg`, `fg`, `bgpal`, `fgpal` (a call that sets only `fgoffset` is
excluded), a context satisfying the palette invariant satisfies
`fg == saturate(fgbase + fgoffset, 0, maxcol)`, `fg ∈ [0, maxcol]` and
`bg ∈ [0, maxcol]`, for every pair of colour hooks. -/
theorem select_colour_palette_invariant (h : Hooks) (c : FontContext)
    (bg fg fgoffset bgpal fgpal : Option Int)
    (hinv : paletteInvariant c)
    (hsome : bg.isSome ∨ fg.isSome ∨ bgpal.isSome ∨ fgpal.isSome) :
    colourPost (select_colour h c bg fg fgoffset bgpal fgpal) := by
  have hm : 0 ≤ c.maxcol := le_trans hinv.1 hinv.2.1
  rcases bg with _ | bgv <;> rcases fg with _ | fgv <;>
    rcases fgoffset with _ | offv <;> rcases bgpal with _ | bgpv <;>
    rcases fgpal with _ | fgpv <;>
    simp only [Option.isSome_none, Option.isSome_some, false_or, or_false,
               Bool.false_eq_true, or_self] at hsome <;>
    first
      | exact rgb_updated_post h _ hm
      | exact gcol_updated_post h _ hm

/-- Witness for the amended C1 theorem at a concrete input. -/
theorem select_colour_palette_invariant_witness :
    colourPost (select_colour defaultHooks {} (some 1) none none none none) :=
  select_colour_palette_invariant defaultHooks {} (some 1) none none none none
    (by decide) (Or.inl (by decide))

/-- C3 (counterexample): with the default hooks, supplying both a palette
parameter (`fg = 1`) and RGB parameters (`bgpal = fgpal = 0`) does not
leave the supplied RGB values stored: `_rgb_updated` re-derives
`fgpal = gcol_to_rgb(rgb_to_gcol(0)) = 0x10 ≠ 0`. -/
theorem select_colour_rgb_wins_counterexample :
    (select_colour defaultHooks {} none (some 1) none (some 0) (some 0)).fgpal ≠ 0 := by
  decide

/-- C3 (amended): when a call supplies a palette parameter and both RGB
parameters, the palette side is processed first and then the RGB side,
but the final stored RGB values are re-derived from the supplied ones
through the hook round-trip:
`fgpal = gcol_to_rgb(saturate(rgb_to_gcol(F), 0, maxcol))` and likewise
`bgpal` — they equal the supplied values only when the hooks restore
them. -/
theorem select_colour_rgb_rederived (h : Hooks) (c : FontContext)
    (bg fg fgoffset : Option Int) (B F : Int)
    (hpal : bg.isSome ∨ fg.isSome ∨ fgoffset.isSome) :
    (select_colour h c bg fg fgoffset (some B) (some F)).fgpal
        = h.gcolToRgb (saturate (h.rgbToGcol F) 0 c.maxcol) ∧
    (select_colour h c bg fg fgoffset (some B) (some F)).bgpal
        = h.gcolToRgb (saturate (h.rgbToGcol B) 0 c.maxcol) := by
  rcases bg with _ | bgv <;> rcases fg with _ | fgv <;>
    rcases fgoffset with _ | offv <;> exact ⟨rfl, rfl⟩

/-- Witness for the amended C3 theorem at a concrete input. -/
theorem select_colour_rgb_rederived_witness :
    (select_colour defaultHooks {} (some 1) none none (some 0) (some 0)).fgpal
        = defaultHooks.gcolToRgb (saturate (defaultHooks.rgbToGcol 0) 0
            ({} : FontContext).maxcol) ∧
    (select_colour defaultHooks {} (some 1) none none (some 0) (some 0)).bgpal
        = defaultHooks.gcolToRgb (saturate (defaultHooks.rgbToGcol 0) 0
            ({} : FontContext).maxcol) :=
  select_colour_rgb_rederived defaultHooks {} (some 1) none none 0 0
    (Or.inl (by decide))

/-! ## Control records and the parser -/

/-- The `FontControl*` record classes (control.py:445-723), as a tagged
variant.  Every variant carries `(index_start, index_end)`.  `moveChar`
and `moveSpace` are the spacing-injected `FontControlMoveCharacter` /
`FontControlMoveSpace` subclasses of `FontControlMove`. -/
inductive FontControl where
  | str (indexStart indexEnd : Nat) (string : List Nat)
  | move (indexStart indexEnd : Nat) (dx dy : Int)
  | gcol (indexStart indexEnd : Nat) (fg bg offset : Option Int)
  | rgb (indexStart indexEnd : Nat) (fg bg offset : Option Int)
  | comment (indexStart indexEnd : Nat) (text : List Nat)
  | underline (indexStart indexEnd : Nat) (pos thickness : Int)
  | font (indexStart indexEnd : Nat) (fontHandle : Nat)
  | matrix (indexStart indexEnd : Nat) (m : Matrix)
  | moveChar (indexStart indexEnd : Nat) (dx dy : Int)
  | moveSpace (indexStart indexEnd : Nat) (dx dy : Int)
deriving DecidableEq

/-- `index_end` of a record. -/
def FontControl.indexEnd : FontControl → Nat
  | .str _ e _ => e
  | .move _ e _ _ => e
  | .gcol _ e _ _ _ => e
  | .rgb _ e _ _ _ => e
  | .comment _ e _ => e
  | .underline _ e _ _ => e
  | .font _ e _ => e
  | .matrix _ e _ => e
  | .moveChar _ e _ _ => e
  | .moveSpace _ e _ _ => e

/-- Whether a record is a `FontControlMatrix`. -/
def FontControl.isMatrix : FontControl → Bool
  | .matrix _ _ _ => true
  | _ => false

/-- Whether a record is a `FontControlString`. -/
def FontControl.isStr : FontControl → Bool
  | .str _ _ _ => true
  | _ => false

/-- Whether a record is a `FontControlMoveSpace`. -/
def FontControl.isMoveSpace : FontControl → Bool
  | .moveSpace _ _ _ _ => true
  | _ => false

/-- The cursor state of `FontControlParser` (control.py:859-864): input
buffer, cursor and enforced maximum length.  The accumulated `sequence`
attribute is carried separately by `FontParser` below, because none of
the read methods (`read_byte`, `read_word`, `read_matrix`, `align`,
`step_back`) touches it. -/
structure ParserState where
  string : List Nat := []
  index : Nat := 0
  maxLength : Nat := 0
deriving DecidableEq

/-- A `FontControlParser`: cursor state plus accumulated sequence. -/
structure FontParser where
  st : ParserState := {}
  sequence : List FontControl := []
deriving DecidableEq

/-- `FontControlParser.read_byte` (control.py:894): return the next byte,
or a synthetic 0 terminator at/past the end of buffer or `max_length`;
the cursor advances in either case. -/
def read_byte (p : ParserState) : Nat × ParserState :=
  (if p.index ≥ p.string.length ∨ p.index ≥ p.maxLength then 0
   else p.string.getD p.index 0,
   { p with index := p.index + 1 })

/-- `FontControlParser.step_back` (control.py:887): move back one byte
when the cursor is positive. -/
def step_back (p : ParserState) : ParserState :=
  if p.index ≠ 0 then { p with index := p.index - 1 } else p

/-- Outcome of `read_word`: the Python code returns `None` (`invalid`),
returns a value (`ok`), or raises `struct.error` when `struct.unpack`
receives fewer than 4 bytes (`structError`). -/
inductive ReadWord where
  | invalid
  | ok (value : Int)
  | structError
deriving DecidableEq

/-- Little-endian value of a 4-byte list (`struct.unpack('<L', data)`). -/
def leWord : List Nat → Nat
  | [b0, b1, b2, b3] => b0 + 2 ^ 8 * b1 + 2 ^ 16 * b2 + 2 ^ 24 * b3
  | _ => 0

/-- `FontControlParser.read_word` (control.py:917): the guard is
`index + 3 > len(string)` / `index + 3 > max_length` (note: not
`index + 4`), returning `None` without advancing when it fires;
otherwise `string[index:index+4]` is sliced (Python slicing clamps to the
buffer) and `struct.unpack` is applied, which raises `struct.error`
unless the slice has exactly 4 bytes.  `'<l'` reinterprets the value as
32-bit two's complement. -/
def read_word (signed : Bool) (p : ParserState) : ReadWord × ParserState :=
  if p.index + 3 > p.string.length ∨ p.index + 3 > p.maxLength then
    (.invalid, p)
  else
    let data := (p.string.drop p.index).take 4
    if data.length = 4 then
      let v := leWord data
      let value : Int :=
        if signed then (if 2 ^ 31 ≤ v then (v : Int) - 2 ^ 32 else (v : Int))
        else (v : Int)
      (.ok value, { p with index := p.index + 4 })
    else (.structError, p)

/-- `FontControlParser.read_signedword` (control.py:909). -/
def read_signedword (p : ParserState) : ReadWord × ParserState :=
  read_word true p

/-- `FontControlParser.align` (control.py:953):
`index = (index + 3) & ~3`. -/
def align (p : ParserState) : ParserState :=
  { p with index := (p.index + 3) / 4 * 4 }

/-- `FontControlParser.read_matrix` (control.py:935): read 4 (or 6)
signed words and build a matrix with the 2×2 part divided by `65536.0`
(exact in doubles for 32-bit values, so `ℚ` division is faithful).
`none` models a Python exception: `struct.error` aborts at the failing
read, and a `None` word makes the `Matrix` construction raise
(`None / 65536.0`) after all reads ran. -/
def read_matrix (withTranslation : Bool) (p : ParserState) :
    Option Matrix × ParserState :=
  let (ra, p1) := read_signedword p
  if ra = .structError then (none, p1) else
  let (rb, p2) := read_signedword p1
  if rb = .structError then (none, p2) else
  let (rc, p3) := read_signedword p2
  if rc = .structError then (none, p3) else
  let (rd, p4) := read_signedword p3
  if rd = .structError then (none, p4) else
  if withTranslation then
    let (re, p5) := read_signedword p4
    if re = .structError then (none, p5) else
    let (rf, p6) := read_signedword p5
    if rf = .structError then (none, p6) else
    match ra, rb, rc, rd, re, rf with
    | .ok a, .ok b, .ok c, .ok d, .ok e, .ok f =>
        (some ⟨qmk a 65536 (by decide), qmk b 65536 (by decide),
               qmk c 65536 (by decide), qmk d 65536 (by decide),
               (e : ℚ), (f : ℚ)⟩, p6)
    | _, _, _, _, _, _ => (none, p6)
  else
    match ra, rb, rc, rd with
    | .ok a, .ok b, .ok c, .ok d =>
        (some ⟨qmk a 65536 (by decide), qmk b 65536 (by decide),
               qmk c 65536 (by decide), qmk d 65536 (by decide), 0, 0⟩, p4)
    | _, _, _, _ => (none, p4)

/-- The inner byte-accumulation loop of the opcode-21 comment branch
(control.py:1034-1039).  Fuel bounds the loop; each iteration advances
the cursor by one and `read_byte` yields 0 (&lt; 32) once the cursor
reaches `min(len(string), max_length)`, so any fuel beyond that bound is
equivalent. -/
def commentLoop : Nat → ParserState → List Nat → List Nat × ParserState
  | 0, p, acc => (acc, p)
  | fuel + 1, p, acc =>
    let (b, p') := read_byte p
    if b < 32 then (acc, p')
    else commentLoop fuel p' (acc ++ [b])

/-- Result of one iteration of the `parse` dispatch loop: the loop stops
(`done`), the Python code raises (`crash`), or iterates (`cont`). -/
inductive StepResult where
  | done (q : FontParser)
  | crash (q : FontParser)
  | cont (q : FontParser)

/-- The printable-byte branch of `parse` (control.py:1082-1092): append
to the previous `FontControlString` when it is the last record, else
start a new one. -/
def parseStrBranch (startIndex b : Nat) (st : ParserState)
    (seq : List FontControl) : StepResult :=
  match seq.getLast? with
  | some (.str s _ t) =>
      .cont ⟨st, seq.dropLast ++ [.str s st.index (t ++ [b])]⟩
  | _ =>
      .cont ⟨st, seq ++ [.str startIndex st.index [b]]⟩

/-- The opcode 9 / 11 move branch (control.py:981-992): a 24-bit
little-endian payload `b0 | (b1 << 8) | (b2 << 16)`, stored unsigned. -/
def parseMoveBranch (startIndex b : Nat) (st : ParserState)
    (seq : List FontControl) : StepResult :=
  let (b0, st) := read_byte st
  let (b1, st) := read_byte st
  let (b2, st) := read_byte st
  let pos : Nat := b0 ||| (b1 <<< 8) ||| (b2 <<< 16)
  if b = 9 then
    .cont ⟨st, seq ++ [.move startIndex st.index (pos : Int) 0]⟩
  else
    .cont ⟨st, seq ++ [.move startIndex st.index 0 (pos : Int)]⟩

/-- The opcode 17 single-GCOL branch (control.py:994-1007). -/
def parseGcol1Branch (startIndex : Nat) (st : ParserState)
    (seq : List FontControl) : StepResult :=
  let (g, st) := read_byte st
  let gcolv : Int := (g &&& 0x7f : Nat)
  if g &&& 0x80 ≠ 0 then
    .cont ⟨st, seq ++ [.gcol startIndex st.index none (some gcolv) none]⟩
  else
    .cont ⟨st, seq ++ [.gcol startIndex st.index (some gcolv) none none]⟩

/-- The opcode 18 GCOL-pair branch (control.py:1009-1019).  The parsed
offset byte is passed to `FontControlGCOL.__init__`, whose body
(control.py:614) assigns `self.offset = None`, discarding it — the
record therefore stores `offset = none`. -/
def parseGcol2Branch (startIndex : Nat) (st : ParserState)
    (seq : List FontControl) : StepResult :=
  let (bgb, st) := read_byte st
  let (fgb, st) := read_byte st
  let (_offb, st) := read_byte st
  .cont ⟨st, seq ++ [.gcol startIndex st.index (some (fgb : Int)) (some (bgb : Int)) none]⟩

/-- The opcode 19 RGB branch (control.py:1021-1030): three channel bytes
shifted into bits 8, 16, 24 and OR'd with 0x10, for bg then fg, then an
offset byte.  `FontControlRGB.__init__` (control.py:640) likewise assigns
`self.offset = None`, discarding the parsed offset. -/
def parseRgbBranch (startIndex : Nat) (st : ParserState)
    (seq : List FontControl) : StepResult :=
  let (r0, st) := read_byte st
  let (r1, st) := read_byte st
  let (r2, st) := read_byte st
  let bgv : Nat := (r0 <<< 8) ||| (r1 <<< 16) ||| (r2 <<< 24) ||| 0x10
  let (s0, st) := read_byte st
  let (s1, st) := read_byte st
  let (s2, st) := read_byte st
  let fgv : Nat := (s0 <<< 8) ||| (s1 <<< 16) ||| (s2 <<< 24) ||| 0x10
  let (_offb, st) := read_byte st
  .cont ⟨st, seq ++ [.rgb startIndex st.index (some (fgv : Int)) (some (bgv : Int)) none]⟩

/-- The opcode 21 comment branch (control.py:1032-1044). -/
def parseCommentBranch (startIndex : Nat) (st : ParserState)
    (seq : List FontControl) : StepResult :=
  let (text, st) := commentLoop (st.string.length + st.maxLength + 2) st []
  .cont ⟨st, seq ++ [.comment startIndex st.index text]⟩

/-- The opcode 25 underline branch (control.py:1046-1056): `pos` is
reinterpreted as signed (`pos - 256` when `> 127`). -/
def parseUnderlineBranch (startIndex : Nat) (st : ParserState)
    (seq : List FontControl) : StepResult :=
  let (posb, st) := read_byte st
  let (th, st) := read_byte st
  let pos : Int := if 127 < posb then (posb : Int) - 256 else (posb : Int)
  .cont ⟨st, seq ++ [.underline startIndex st.index pos (th : Int)]⟩

/-- The opcode 26 font branch (control.py:1058-1065). -/
def parseFontBranch (startIndex : Nat) (st : ParserState)
    (seq : List FontControl) : StepResult :=
  let (fh, st) := read_byte st
  .cont ⟨st, seq ++ [.font startIndex st.index fh]⟩

/-- The opcode 27 / 28 matrix branch (control.py:1067-1075): align to a
word boundary, read the matrix (with translation for 28); a failed read
is a Python exception (`crash`). -/
def parseMatrixBranch (startIndex b : Nat) (st : ParserState)
    (seq : List FontControl) : StepResult :=
  let st := align st
  let (m?, st) := read_matrix (b ≠ 27) st
  match m? with
  | none => .crash ⟨st, seq⟩
  | some m => .cont ⟨st, seq ++ [.matrix startIndex st.index m]⟩

/-- One iteration of the `while True` dispatch loop of
`FontControlParser.parse` (control.py:972-1092). -/
def parseStep (q : FontParser) : StepResult :=
  let startIndex := q.st.index
  let b := (read_byte q.st).1
  let st := (read_byte q.st).2
  if b = 0 ∨ b = 10 ∨ b = 13 then .done ⟨step_back st, q.sequence⟩
  else if b = 9 ∨ b = 11 then parseMoveBranch startIndex b st q.sequence
  else if b = 17 then parseGcol1Branch startIndex st q.sequence
  else if b = 18 then parseGcol2Branch startIndex st q.sequence
  else if b = 19 then parseRgbBranch startIndex st q.sequence
  else if b = 21 then parseCommentBranch startIndex st q.sequence
  else if b = 25 then parseUnderlineBranch startIndex st q.sequence
  else if b = 26 then parseFontBranch startIndex st q.sequence
  else if b = 27 ∨ b = 28 then parseMatrixBranch startIndex b st q.sequence
  else if b < 32 then .done ⟨st, q.sequence⟩
  else parseStrBranch startIndex b st q.sequence

/-- The `parse` dispatch loop.  The Boolean is true when the Python code
would raise.  Each continuing iteration advances the cursor by at least
one, and the loop stops once the cursor reaches
`min(len(string), max_length)` (the synthetic 0 terminator), so any fuel
greater than that bound is equivalent. -/
def parseLoop : Nat → FontParser → FontParser × Bool
  | 0, q => (q, false)
  | fuel + 1, q =>
    match parseStep q with
    | .done q' => (q', false)
    | .crash q' => (q', true)
    | .cont q' => parseLoop fuel q'

/-- `FontControlParser.parse` (control.py:959): clamp `max_length`
(default and cap `2^20`), reset buffer and cursor while keeping the
accumulated sequence, run the dispatch loop. -/
def parse (q : FontParser) (string : List Nat) (maxLength : Option Int) :
    FontParser × Bool :=
  let ml : Nat :=
    match maxLength with
    | none => 2 ^ 20
    | some v => if v ≥ 2 ^ 20 ∨ v < 0 then 2 ^ 20 else v.toNat
  let q : FontParser := ⟨{ string := string, maxLength := ml, index := 0 }, q.sequence⟩
  parseLoop (min string.length ml + 2) q

/-- A freshly constructed `FontControlParser` (control.py:859):
empty buffer and sequence, cursor 0. -/
def initParser : FontParser := {}

/-- One `parse` call on a fresh parser. -/
def parseFresh (string : List Nat) (maxLength : Option Int) :
    FontParser × Bool :=
  parse initParser string maxLength

/-- C4 (code evaluation at the failing input): with exactly 3 bytes
remaining in the buffer (`string = [1, 2, 3]`, cursor 0, `max_length`
at its default), `read_word` and `read_signedword` do not return the
invalid value — the `index + 3 > len` guard fails to fire and
`struct.unpack` raises `struct.error` on the 3-byte slice.  With 0, 1 or
2 bytes remaining the claimed behaviour does hold. -/
theorem read_word_three_bytes_struct_error :
    (read_word false { string := [1, 2, 3], index := 0, maxLength := 2 ^ 20 }).1
        ≠ .invalid ∧
    read_word false { string := [1, 2, 3], index := 0, maxLength := 2 ^ 20 }
        = (.structError, { string := [1, 2, 3], index := 0, maxLength := 2 ^ 20 }) ∧
    read_signedword { string := [1, 2, 3], index := 0, maxLength := 2 ^ 20 }
        = (.structError, { string := [1, 2, 3], index := 0, maxLength := 2 ^ 20 }) ∧
    (read_word false { string := [1, 2], index := 0, maxLength := 2 ^ 20 }).1
        = .invalid ∧
    (read_word false { string := [1], index := 0, maxLength := 2 ^ 20 }).1
        = .invalid ∧
    (read_word false { string := [], index := 0, maxLength := 2 ^ 20 }).1
        = .invalid := by
  decide

/-- C10: an opcode-21 comment that reaches the end of the buffer without
a byte `< 32` still consumes the synthetic terminator: the input
`[21, 65, 66]` (length 3) yields a Comment record with
`index_end = 4 > 3`. -/
theorem comment_index_end_overruns_buffer :
    (parseFresh [21, 65, 66] none).1.sequence = [.comment 0 4 [65, 66]] ∧
    ([21, 65, 66] : List Nat).length = 3 ∧ (3 : Nat) < 4 := by
  decide

/-- C9 (counterexample): the three payload bytes `00 00 80` encode the
unsigned value `0x800000 = 8388608 ≥ 2^23`; the stored delta is
`8388608`, not `8388608 − 2^24 = −8388608` as the claim states. -/
theorem move_payload_not_sign_extended :
    (parseFresh [9, 0, 0, 0x80, 0] none).1.sequence = [.move 0 4 8388608 0] ∧
    (8388608 : Int) ≠ 8388608 - 2 ^ 24 := by
  decide

/-- C9 (amended): the 24-bit move payload of opcodes 9 and 11 is read as
an unsigned value `b0 | (b1 << 8) | (b2 << 16)`; the stored delta equals
that value and is never negative — there is no sign extension for values
`≥ 2^23`. -/
theorem move_payload_unsigned (b0 b1 b2 : Nat) :
    (parseFresh [9, b0, b1, b2, 0] none).1.sequence
        = [.move 0 4 ((b0 ||| (b1 <<< 8) ||| (b2 <<< 16) : Nat) : Int) 0] ∧
    (parseFresh [11, b0, b1, b2, 0] none).1.sequence
        = [.move 0 4 0 ((b0 ||| (b1 <<< 8) ||| (b2 <<< 16) : Nat) : Int)] ∧
    (0 : Int) ≤ ((b0 ||| (b1 <<< 8) ||| (b2 <<< 16) : Nat) : Int) :=
  ⟨rfl, rfl, Int.ofNat_nonneg _⟩

/-! ### The String-span invariant (C7) -/

/-- Span/length agreement for a record:
`index_end = index_start + len(string)` for String records, trivially
true otherwise. -/
def strSpanOk : FontControl → Bool
  | .str s e t => decide (e = s + t.length)
  | _ => true

/-- Every String record in the list satisfies
`index_end − index_start = len(string)`. -/
def strInv (l : List FontControl) : Prop := ∀ r ∈ l, strSpanOk r = true

/-- If the last record of the list is a String, its `index_end` equals
the given cursor position. -/
def lastStrOk (l : List FontControl) (i : Nat) : Bool :=
  match l.getLast? with
  | some (.str _ e _) => decide (e = i)
  | _ => true

/-- The invariant carried through the dispatch loop. -/
def stepOk : StepResult → Prop
  | .done q => strInv q.sequence
  | .crash q => strInv q.sequence
  | .cont q => strInv q.sequence ∧ lastStrOk q.sequence q.st.index = true

theorem strInv_concat {l : List FontControl} {r : FontControl}
    (h : strInv l) (hr : strSpanOk r = true) : strInv (l ++ [r]) := by
  intro x hx
  rcases List.mem_append.1 hx with hx | hx
  · exact h x hx
  · have hxr : x = r := List.mem_singleton.1 hx
    exact hxr ▸ hr

theorem lastStrOk_concat_nonstr {l : List FontControl} {r : FontControl}
    {i : Nat} (hr : r.isStr = false) : lastStrOk (l ++ [r]) i = true := by
  unfold lastStrOk
  rw [List.getLast?_concat]
  cases r <;> first
    | rfl
    | exact absurd hr (by simp [FontControl.isStr])

theorem parseMoveBranch_ok (start b : Nat) (st : ParserState)
    (seq : List FontControl) (h : strInv seq) :
    stepOk (parseMoveBranch start b st seq) := by
  unfold parseMoveBranch
  dsimp only [read_byte]
  split <;>
    exact ⟨strInv_concat h rfl, lastStrOk_concat_nonstr rfl⟩

theorem parseGcol1Branch_ok (start : Nat) (st : ParserState)
    (seq : List FontControl) (h : strInv seq) :
    stepOk (parseGcol1Branch start st seq) := by
  unfold parseGcol1Branch
  dsimp only [read_byte]
  split_ifs <;>
    exact ⟨strInv_concat h rfl, lastStrOk_concat_nonstr rfl⟩

theorem parseGcol2Branch_ok (start : Nat) (st : ParserState)
    (seq : List FontControl) (h : strInv seq) :
    stepOk (parseGcol2Branch start st seq) := by
  unfold parseGcol2Branch
  dsimp only [read_byte]
  exact ⟨strInv_concat h rfl, lastStrOk_concat_nonstr rfl⟩

theorem parseRgbBranch_ok (start : Nat) (st : ParserState)
    (seq : List FontControl) (h : strInv seq) :
    stepOk (parseRgbBranch start st seq) := by
  unfold parseRgbBranch
  dsimp only [read_byte]
  exact ⟨strInv_concat h rfl, lastStrOk_concat_nonstr rfl⟩

theorem parseCommentBranch_ok (start : Nat) (st : ParserState)
    (seq : List FontControl) (h : strInv seq) :
    stepOk (parseCommentBranch start st seq) := by
  unfold parseCommentBranch
  rcases commentLoop (st.string.length + st.maxLength + 2) st [] with ⟨text, st2⟩
  exact ⟨strInv_concat h rfl, lastStrOk_concat_nonstr rfl⟩

theorem parseUnderlineBranch_ok (start : Nat) (st : ParserState)
    (seq : List FontControl) (h : strInv seq) :
    stepOk (parseUnderlineBranch start st seq) := by
  unfold parseUnderlineBranch
  dsimp only [read_byte]
  exact ⟨strInv_concat h rfl, lastStrOk_concat_nonstr rfl⟩

theorem parseFontBranch_ok (start : Nat) (st : ParserState)
    (seq : List FontControl) (h : strInv seq) :
    stepOk (parseFontBranch start st seq) := by
  unfold parseFontBranch
  dsimp only [read_byte]
  exact ⟨strInv_concat h rfl, lastStrOk_concat_nonstr rfl⟩

theorem parseMatrixBranch_ok (start b : Nat) (st : ParserState)
    (seq : List FontControl) (h : strInv seq) :
    stepOk (parseMatrixBranch start b st seq) := by
  unfold parseMatrixBranch
  dsimp only
  repeat' split
  all_goals
    first
      | exact ⟨strInv_concat h rfl, lastStrOk_concat_nonstr rfl⟩
      | exact h

theorem parseStrBranch_ok (start b : Nat) (st : ParserState)
    (seq : List FontControl) (hidx : st.index = start + 1)
    (h : strInv seq) (hlast : lastStrOk seq start = true) :
    stepOk (parseStrBranch start b st seq) := by
  unfold parseStrBranch
  split
  case _ s e t heq =>
    have hmem : FontControl.str s e t ∈ seq := List.mem_of_mem_getLast? heq
    have hspan : e = s + t.length := by
      have := h _ hmem
      simpa [strSpanOk] using this
    have he : e = start := by
      unfold lastStrOk at hlast
      rw [heq] at hlast
      simpa using hlast
    refine ⟨strInv_concat (fun x hx => h x ((List.dropLast_sublist seq).subset hx)) ?_, ?_⟩
    · simp only [strSpanOk, List.length_append, List.length_singleton]
      rw [decide_eq_true_iff]
      omega
    · unfold lastStrOk
      rw [List.getLast?_concat]
      simp
  case _ =>
    refine ⟨strInv_concat h ?_, ?_⟩
    · simp only [strSpanOk, List.length_singleton]
      rw [decide_eq_true_iff]
      omega
    · unfold lastStrOk
      rw [List.getLast?_concat]
      simp

theorem parseStep_ok (q : FontParser) (h : strInv q.sequence)
    (hlast : lastStrOk q.sequence q.st.index = true) :
    stepOk (parseStep q) := by
  unfold parseStep
  dsimp only
  generalize (read_byte q.st).1 = b
  repeat' split
  · exact h
  · exact parseMoveBranch_ok _ _ _ _ h
  · exact parseGcol1Branch_ok _ _ _ h
  · exact parseGcol2Branch_ok _ _ _ h
  · exact parseRgbBranch_ok _ _ _ h
  · exact parseCommentBranch_ok _ _ _ h
  · exact parseUnderlineBranch_ok _ _ _ h
  · exact parseFontBranch_ok _ _ _ h
  · exact parseMatrixBranch_ok _ _ _ _ h
  · exact h
  · exact parseStrBranch_ok _ _ _ _ rfl h hlast

theorem parseLoop_ok (fuel : Nat) (q : FontParser) (h : strInv q.sequence)
    (hlast : lastStrOk q.sequence q.st.index = true) :
    strInv (parseLoop fuel q).1.sequence := by
  induction fuel generalizing q with
  | zero => exact h
  | succ n ih =>
    unfold parseLoop
    have hs := parseStep_ok q h hlast
    rcases hps : parseStep q with q' | q' | q' <;> rw [hps] at hs <;> dsimp only
    · exact hs
    · exact hs
    · exact ih q' hs.1 hs.2

/-- C7 (amended): after a single `parse` call on a parser whose sequence
is empty (a fresh or cleared parser), every String record of the
resulting sequence satisfies `index_end − index_start == len(string)`.
(Across several `parse` calls the invariant can fail: a later call
appends printable bytes to the final String of an earlier call while the
cursor restarts at 0 — see the counterexample.) -/
theorem parse_string_span (q0 : FontParser) (string : List Nat)
    (maxLength : Option Int) (hempty : q0.sequence = []) :
    strInv ((parse q0 string maxLength).1.sequence) := by
  unfold parse
  apply parseLoop_ok
  · intro r hr
    rw [hempty] at hr
    cases hr
  · show lastStrOk q0.sequence _ = true
    rw [hempty]
    rfl

/-- Witness for the amended C7 theorem at a concrete input. -/
theorem parse_string_span_witness :
    strInv ((parse initParser [104, 105] none).1.sequence) :=
  parse_string_span initParser [104, 105] none rfl

/-- C7 (counterexample): two `parse` calls on one parser.  The second
call resets the cursor to 0 but appends its printable byte to the last
String record of the first call, leaving a String with
`index_end − index_start = 1` but `len(string) = 2`. -/
theorem parse_twice_string_span_counterexample :
    (parse (parseFresh [65] none).1 [66] none).1.sequence = [.str 0 1 [65, 66]] ∧
    ¬ ((1 : Nat) - 0 = ([65, 66] : List Nat).length) := by
  decide

/-! ### Spacing and splitting (`FontSpacing`, `FontControlSequence`) -/

/-- `FontSpacing` (control.py:32-53): word and character offsets. -/
structure FontSpacing where
  word_xoffset : Int := 0
  word_yoffset : Int := 0
  char_xoffset : Int := 0
  char_yoffset : Int := 0
deriving DecidableEq

/-- `FontSpacing.__bool__` (control.py:60): truthy iff any offset is
non-zero. -/
def FontSpacing.isTruthy (sp : FontSpacing) : Bool :=
  decide (sp.word_xoffset ≠ 0 ∨ sp.word_yoffset ≠ 0 ∨
          sp.char_xoffset ≠ 0 ∨ sp.char_yoffset ≠ 0)

/-- The `split_char` argument of `_apply_splits` / `size`: `None`
(falsy), a single-byte split string such as `b' '`, or the `-1` sentinel
meaning split at every byte.  The code is only exercised with
single-byte split strings, so `bytes.split` is modelled for a one-byte
separator. -/
inductive SplitChar where
  | noSplit
  | byte (c : Nat)
  | everyByte
deriving DecidableEq

/-- Python `bytes.split(sep)` for a single-byte separator:
`b''.split(sep) == [b'']`; separators at the ends produce empty
pieces. -/
def splitOnByte (c : Nat) : List Nat → List (List Nat)
  | [] => [[]]
  | b :: l =>
      if b = c then [] :: splitOnByte c l
      else
        match splitOnByte c l with
        | [] => [[b]]
        | p :: ps => (b :: p) :: ps

/-- Concatenation of the lists produced by `f` — a Python generator that
yields zero or more records per input record. -/
def concatMap {α β : Type} (f : α → List β) : List α → List β
  | [] => []
  | a :: l => f a ++ concatMap f l

/-- The part-emission loop of `_apply_splits` (control.py:766-780):
`delim = some c` when the pieces are separated by a split character
(which is re-emitted as its own single-byte String between pieces),
`none` in the split-every-byte case.  Empty pieces are skipped but still
advance the offset by their (zero) size. -/
def emitParts (delim : Option Nat) (start : Nat) :
    Nat → List (List Nat) → List FontControl
  | _, [] => []
  | offset, s :: rest =>
    let size := s.length
    let piece : List FontControl :=
      if s.isEmpty then [] else [.str (start + offset) (start + offset + size) s]
    match rest, delim with
    | _ :: _, some c =>
        piece ++ [.str (start + offset + size) (start + offset + size + 1) [c]]
          ++ emitParts delim start (offset + size + 1) rest
    | _, _ => piece ++ emitParts delim start (offset + size) rest

/-- `FontControlSequence._apply_splits` (control.py:751-782) for one
record: splitting only applies to String records under a truthy
`split_char`, and a single-part split yields the record unchanged. -/
def applySplitsOne (sc : SplitChar) (ctrl : FontControl) : List FontControl :=
  match ctrl, sc with
  | .str s0 _ s, .byte c =>
      let parts := splitOnByte c s
      if parts.length = 1 then [ctrl] else emitParts (some c) s0 0 parts
  | .str s0 _ s, .everyByte =>
      let parts := s.map (fun b => [b])
      if parts.length = 1 then [ctrl] else emitParts none s0 0 parts
  | _, _ => [ctrl]

/-- The word-split trailing-space test of `apply_spacing`
(control.py:836): `if s[-1] == b' '` compares the integer `s[-1]` with
the bytes object `b' '`; under Python 3 this comparison is always False,
whatever `s` is. -/
def trailingSpaceCheck (_s : List Nat) : Bool := false

/-- The word/character expansion loop of `apply_spacing`
(control.py:816-839).  `wordSplit` is false in character mode (each part
is a single byte, followed by `MoveChar`, plus `MoveSpace` when the part
is a space and a word offset is set), true in word mode (parts re-gain
their trailing space, and the `trailingSpaceCheck` guards `MoveSpace`).
Empty parts are skipped (`continue`). -/
def emitSpaced (wordSplit : Bool) (sp : FontSpacing) (start : Nat) :
    Nat → List (List Nat) → List FontControl
  | _, [] => []
  | offset, s :: rest =>
    let last := rest.isEmpty
    let s := if wordSplit && !last then s ++ [32] else s
    if s.isEmpty then emitSpaced wordSplit sp start offset rest
    else
      let size := s.length
      let i1 := start + offset + size
      [FontControl.str (start + offset) i1 s] ++
      (if !wordSplit then
        [FontControl.moveChar i1 i1 sp.char_xoffset sp.char_yoffset] ++
        (if s = [32] ∧ (sp.word_xoffset ≠ 0 ∨ sp.word_yoffset ≠ 0) then
          [FontControl.moveSpace i1 i1 sp.word_xoffset sp.word_yoffset]
        else [])
      else
        (if trailingSpaceCheck s then
          [FontControl.moveSpace i1 i1 sp.word_xoffset sp.word_yoffset]
        else [])) ++
      emitSpaced wordSplit sp start (offset + size) rest

/-- `FontControlSequence.apply_spacing` (control.py:784-842): the
`_apply_splits` pass followed, for truthy spacing, by the word/character
expansion of each String record.  The `context` parameter of the Python
generator is unused by its body and omitted here. -/
def applySpacing (seq : List FontControl) (spacing : Option FontSpacing)
    (sc : SplitChar) : List FontControl :=
  concatMap (fun ctrl =>
    match ctrl with
    | .str s0 _ s =>
        match spacing with
        | some sp =>
            if sp.isTruthy then
              if sp.char_xoffset ≠ 0 ∨ sp.char_yoffset ≠ 0 then
                emitSpaced false sp s0 0 (s.map (fun b => [b]))
              else
                emitSpaced true sp s0 0 (splitOnByte 32 s)
            else [ctrl]
        | none => [ctrl]
    | _ => [ctrl])
    (concatMap (applySplitsOne sc) seq)

/-- C6 (code evaluation at the failing input): the repository's own test
`test_11_paint_plain_spacing_word` and the spec expect word-split mode to
emit `MoveSpace(word_dx, word_dy)` after each piece whose last byte is
the space 0x20, but the Python-3 comparison `s[-1] == b' '`
(`trailingSpaceCheck`) is always False, so no `MoveSpace` record is ever
emitted: the String `"hi b"` with word spacing `(5, 0)` expands to the
two pieces alone. -/
theorem apply_spacing_word_no_movespace :
    applySpacing [.str 0 4 [104, 105, 32, 98]]
        (some { word_xoffset := 5 }) .noSplit
      = [.str 0 3 [104, 105, 32], .str 3 4 [98]] ∧
    ∀ r ∈ applySpacing [.str 0 4 [104, 105, 32, 98]]
        (some { word_xoffset := 5 }) .noSplit, r.isMoveSpace = false := by
  decide

/-! ### The record `apply` walk and the sizing algorithm -/

/-- `beyond_limits` (control.py:366-370).  Note the `y < limity`
comparison (not `>`) in the negative-`limity` arm, while both `limitx`
arms compare with `>`.  With unset (`None`) limits Python 3 would raise
TypeError on the comparison; `size` always sets both before the walk. -/
def beyond_limits (c : FontContext) : Bool :=
  match c.limitx, c.limity with
  | some lx, some ly =>
      decide ((0 ≤ lx ∧ lx < c.x) ∨ (lx < 0 ∧ lx < c.x) ∨
              (0 ≤ ly ∧ ly < c.y) ∨ (ly < 0 ∧ c.y < ly))
  | _, _ => false

/-- The per-record `size` methods (control.py:482-490, 534-548,
582-583): String applies the current transform to `font_bounds`
(raw when the transform is identity-falsy), the move variants yield
their deltas, everything else is zero. -/
def recordSize (h : Hooks) (r : FontControl) (c : FontContext) : SizeInfo :=
  match r with
  | .str _ _ s =>
      let fb := h.fontBounds (some s)
      if c.transform.isTruthy then
        let bb := c.transform.bbox fb.xl fb.yb fb.xr fb.yt
        let off := c.transform.applyPt fb.xo fb.yo
        ⟨bb.1, bb.2.1, bb.2.2.1, bb.2.2.2, off.1, off.2⟩
      else fb
  | .move _ _ dx dy => ⟨0, 0, 0, 0, (dx : ℚ), (dy : ℚ)⟩
  | .moveChar _ _ dx dy => ⟨0, 0, 0, 0, (dx : ℚ), (dy : ℚ)⟩
  | .moveSpace _ _ dx dy => ⟨0, 0, 0, 0, (dx : ℚ), (dy : ℚ)⟩
  | _ => ⟨0, 0, 0, 0, 0, 0⟩

/-- `FontControlBase.apply` (control.py:465-480) together with the
per-class `apply` overrides: Matrix replaces the transform
(control.py:598-602), GCOL and RGB call `select_colour` with the stored
(`None`) offset (control.py:626-628, 652-654), Underline recomputes the
underline metrics with the `font_bounds(None)` multiplier
(control.py:685-692), Font selects the handle (control.py:707-709);
then the shared bounds-union and cursor advance. -/
def applyRecord (h : Hooks) (r : FontControl) (c0 : FontContext) : FontContext :=
  let c :=
    match r with
    | .matrix _ _ m => { c0 with transform := m }
    | .gcol _ _ fg bg offset => select_colour h c0 bg fg offset none none
    | .rgb _ _ fg bg offset => select_colour h c0 none none offset bg fg
    | .underline _ _ pos th =>
        let fb := h.fontBounds none
        let multiplier := qdivN fb.yt 256 (by decide)
        { c0 with underline_pos := qmul (pos : ℚ) multiplier,
                  underline_thickness := qmul (th : ℚ) multiplier }
    | .font _ _ fh => { c0 with font := some (fh : Int), font_handle := (fh : Int) }
    | _ => c0
  let si := recordSize h r c
  { c with
      bounds := c.bounds.union4 (qadd c.x si.xl) (qadd c.y si.yb)
                  (qadd c.x si.xr) (qadd c.y si.yt),
      x := qadd c.x si.xo, y := qadd c.y si.yo }

/-- The split count of one record in the `size` walk
(control.py:380-389). -/
def splitsSeen (sc : SplitChar) (r : FontControl) : Nat :=
  match r, sc with
  | .str _ _ s, .noSplit => s.length
  | .str _ _ s, .byte c => if s = [c] then 1 else 0
  | .str _ _ _, .everyByte => 1
  | _, _ => 0

/-- The string payload inspected by the beyond-limits handling
(`string = ''` unless the record is a String, control.py:381-383). -/
def strPayload : FontControl → List Nat
  | .str _ _ s => s
  | _ => []

/-- The `for ctrl in sequence.apply_spacing(...)` loop of
`FontContext.size` (control.py:372-428).  `rec` performs the recursive
`last_context.size(seq2, split_char=-1, continued=True)` call of
control.py:414; its returned context is what `last_context.copy(to=self)`
then copies back.  Arguments after the record list: the context, the
last split point, the last split index, the last index, the splits seen
so far. -/
def sizeLoop (h : Hooks) (sc : SplitChar)
    (rec : FontContext → List FontControl → (Nat × Nat) × FontContext) :
    List FontControl → FontContext → FontContext → Nat → Nat → Nat →
    (Nat × Nat) × FontContext
  | [], ctx, _, _, lastIndex, lastSplits => ((lastIndex, lastSplits), ctx)
  | r :: rest, ctx, lastSplitPoint, lastSplitIndex, lastIndex, lastSplits =>
    let lastContext := ctx
    let ctx := applyRecord h r ctx
    let splits := splitsSeen sc r
    if beyond_limits ctx then
      match sc with
      | .byte _ => ((lastSplitIndex, lastSplits), lastSplitPoint)
      | _ =>
          if 1 < (strPayload r).length then
            let res := rec lastContext [r]
            ((res.1.1, lastSplits + res.1.2), res.2)
          else ((lastIndex, lastSplits), lastContext)
    else
      let lastSplitPoint := if splits ≠ 0 ∧ sc ≠ .noSplit then ctx else lastSplitPoint
      let lastSplitIndex := if splits ≠ 0 ∧ sc ≠ .noSplit then r.indexEnd else lastSplitIndex
      sizeLoop h sc rec rest ctx lastSplitPoint lastSplitIndex r.indexEnd
        (lastSplits + splits)

/-- The `continued=False` initialisation of `size` (control.py:350-358):
zero the cursor, clear bounds and underline, and set the limits
(`0x7FFFFFFF` when unset). -/
def resetForSize (limits : Option (ℚ × ℚ)) (c : FontContext) : FontContext :=
  { c with x := 0, y := 0, bounds := .empty,
           underline_pos := 0, underline_thickness := 0,
           limitx := some (match limits with | none => (0x7FFFFFFF : ℚ) | some l => l.1),
           limity := some (match limits with | none => (0x7FFFFFFF : ℚ) | some l => l.2) }

/-- `FontContext.size` (control.py:342-428), with explicit recursion
fuel.  The recursive call (control.py:414) passes `split_char=-1` and a
single-String sequence; its `_apply_splits` pass yields only strings of
length ≤ 1, so `len(string) > 1` can never fire inside it — the Python
recursion depth is at most 2 and any positive fuel is equivalent
(`size` below uses 2). -/
def sizeAux (h : Hooks) : Nat → FontContext → List FontControl →
    Option FontSpacing → Option (ℚ × ℚ) → SplitChar → Bool →
    (Nat × Nat) × FontContext
  | 0, c, seq, spacing, limits, sc, continued =>
      let c := if continued then c else resetForSize limits c
      sizeLoop h sc (fun c' _ => ((0, 0), c'))
        (applySpacing seq spacing sc) c c 0 0 0
  | n + 1, c, seq, spacing, limits, sc, continued =>
      let c := if continued then c else resetForSize limits c
      sizeLoop h sc (fun c' s => sizeAux h n c' s none none .everyByte true)
        (applySpacing seq spacing sc) c c 0 0 0

/-- `FontContext.size` at the fuel sufficient for the source's
recursion. -/
def size (h : Hooks) (c : FontContext) (seq : List FontControl)
    (spacing : Option FontSpacing) (limits : Option (ℚ × ℚ))
    (sc : SplitChar) (continued : Bool) : (Nat × Nat) × FontContext :=
  sizeAux h 2 c seq spacing limits sc continued

/-- C2 (counterexample): with `limitx = 0`, `limity = −5`, `x = 0`,
`y = −10`, the code judges the context beyond limits (the
`limity < 0 and y < limity` arm fires) although neither `x > limitx`
nor `y > limity` holds. -/
theorem beyond_limits_counterexample :
    beyond_limits { x := 0, y := -10, limitx := some 0, limity := some (-5) } = true ∧
    ¬ ((0 : ℚ) < 0 ∨ (-5 : ℚ) < -10) := by
  decide

/-- C2 (amended): during `size`, a context with set limits is judged
beyond limits iff `x > limitx`, or `limity ≥ 0` and `y > limity`, or
`limity < 0` and `y < limity`: the x-comparison follows standard
arithmetic ordering for either sign of `limitx`, but for negative
`limity` the code compares `y < limity` rather than `y > limity`. -/
theorem beyond_limits_characterisation (c : FontContext) (lx ly : ℚ)
    (hx : c.limitx = some lx) (hy : c.limity = some ly) :
    beyond_limits c = true ↔
      (lx < c.x ∨ (0 ≤ ly ∧ ly < c.y) ∨ (ly < 0 ∧ c.y < ly)) := by
  unfold beyond_limits
  rw [hx, hy]
  simp only [decide_eq_true_iff]
  constructor
  · rintro (⟨_, hlt⟩ | ⟨_, hlt⟩ | hyc | hyc)
    · exact Or.inl hlt
    · exact Or.inl hlt
    · exact Or.inr (Or.inl hyc)
    · exact Or.inr (Or.inr hyc)
  · rintro (hlt | hyc | hyc)
    · rcases le_or_lt 0 lx with h0 | h0
      · exact Or.inl ⟨h0, hlt⟩
      · exact Or.inr (Or.inl ⟨h0, hlt⟩)
    · exact Or.inr (Or.inr (Or.inl hyc))
    · exact Or.inr (Or.inr (Or.inr hyc))

/-- Witness for the amended C2 theorem at a concrete input. -/
theorem beyond_limits_characterisation_witness :
    beyond_limits { x := 5, y := 0, limitx := some 3, limity := some 7 } = true ↔
      ((3 : ℚ) < 5 ∨ ((0 : ℚ) ≤ 7 ∧ (7 : ℚ) < 0) ∨ ((7 : ℚ) < 0 ∧ (0 : ℚ) < 7)) :=
  beyond_limits_characterisation
    { x := 5, y := 0, limitx := some 3, limity := some 7 } 3 7 rfl rfl

/-- C5 (code evaluation at the failing input): the opcode-18 record with
payload bytes `bg=1, fg=2, offset=3` is stored with `offset = none`
(`FontControlGCOL.__init__`, control.py:614, discards the parsed byte),
and applying it calls `select_colour(fg=2, bg=1, fgoffset=None)`: from
the initial context the resulting fg is 2, whereas passing the parsed
offset byte as the claim states would give fg = 2 + 3 = 5. -/
theorem gcol_record_offset_dropped :
    (parseFresh [18, 1, 2, 3, 0] none).1.sequence
        = [.gcol 0 4 (some 2) (some 1) none] ∧
    (applyRecord defaultHooks (.gcol 0 4 (some 2) (some 1) none) {}).fg = 2 ∧
    (select_colour defaultHooks {} (some 1) (some 2) (some 3) none none).fg = 5 := by
  decide

/-- C8 (counterexample): `size` resets cursor, bounds, underline and
limits but not the transform, so for the sequence
`[String "a", Matrix(translate x+100)]` the second call sizes the String
under the matrix left behind by the first call: both calls on the
initial context return `(24, 1)`, but the final bounds differ —
`(0, 0, 0, 0)` after the first call, `(100, 0, 100, 0)` after the
second. -/
theorem size_twice_counterexample :
    ¬ ((size defaultHooks {} [.str 0 1 [97], .matrix 1 24 ⟨1, 0, 0, 1, 100, 0⟩]
          none none .noSplit false).1
        = (size defaultHooks
            (size defaultHooks {} [.str 0 1 [97], .matrix 1 24 ⟨1, 0, 0, 1, 100, 0⟩]
              none none .noSplit false).2
            [.str 0 1 [97], .matrix 1 24 ⟨1, 0, 0, 1, 100, 0⟩]
            none none .noSplit false).1
      ∧ (size defaultHooks {} [.str 0 1 [97], .matrix 1 24 ⟨1, 0, 0, 1, 100, 0⟩]
            none none .noSplit false).2.bounds
        = (size defaultHooks
            (size defaultHooks {} [.str 0 1 [97], .matrix 1 24 ⟨1, 0, 0, 1, 100, 0⟩]
              none none .noSplit false).2
            [.str 0 1 [97], .matrix 1 24 ⟨1, 0, 0, 1, 100, 0⟩]
            none none .noSplit false).2.bounds) := by
  decide

/-! ### Determinism of the sizing walk over the geometric state (C8)

The `size` walk reads and writes the colour and font state (through
GCOL/RGB/Font records) but its control flow, returned tuple and final
bounds depend only on the geometric part of the context.  `Geom`
projects that part; the `...G` functions below replay `size` on it, and
`sizeAux_geom` shows the projection commutes with the walk. -/

/-- The geometric part of a `FontContext`. -/
structure Geom where
  x : ℚ
  y : ℚ
  bounds : Bounds
  underline_pos : ℚ
  underline_thickness : ℚ
  limitx : Option ℚ
  limity : Option ℚ
  transform : Matrix
deriving DecidableEq

/-- Projection of a context onto its geometric part. -/
def geomOf (c : FontContext) : Geom :=
  ⟨c.x, c.y, c.bounds, c.underline_pos, c.underline_thickness,
   c.limitx, c.limity, c.transform⟩

/-- `beyond_limits` on the geometric part. -/
def beyondG (g : Geom) : Bool :=
  match g.limitx, g.limity with
  | some lx, some ly =>
      decide ((0 ≤ lx ∧ lx < g.x) ∨ (lx < 0 ∧ lx < g.x) ∨
              (0 ≤ ly ∧ ly < g.y) ∨ (ly < 0 ∧ g.y < ly))
  | _, _ => false

/-- `recordSize` on the geometric part. -/
def recordSizeG (h : Hooks) (r : FontControl) (g : Geom) : SizeInfo :=
  match r with
  | .str _ _ s =>
      let fb := h.fontBounds (some s)
      if g.transform.isTruthy then
        let bb := g.transform.bbox fb.xl fb.yb fb.xr fb.yt
        let off := g.transform.applyPt fb.xo fb.yo
        ⟨bb.1, bb.2.1, bb.2.2.1, bb.2.2.2, off.1, off.2⟩
      else fb
  | .move _ _ dx dy => ⟨0, 0, 0, 0, (dx : ℚ), (dy : ℚ)⟩
  | .moveChar _ _ dx dy => ⟨0, 0, 0, 0, (dx : ℚ), (dy : ℚ)⟩
  | .moveSpace _ _ dx dy => ⟨0, 0, 0, 0, (dx : ℚ), (dy : ℚ)⟩
  | _ => ⟨0, 0, 0, 0, 0, 0⟩

/-- `applyRecord` on the geometric part: the colour and font records
leave it unchanged apart from the shared bounds-union and cursor
advance. -/
def applyGeom (h : Hooks) (r : FontControl) (g0 : Geom) : Geom :=
  let g :=
    match r with
    | .matrix _ _ m => { g0 with transform := m }
    | .underline _ _ pos th =>
        let fb := h.fontBounds none
        let multiplier := qdivN fb.yt 256 (by decide)
        { g0 with underline_pos := qmul (pos : ℚ) multiplier,
                  underline_thickness := qmul (th : ℚ) multiplier }
    | _ => g0
  let si := recordSizeG h r g
  { g with
      bounds := g.bounds.union4 (qadd g.x si.xl) (qadd g.y si.yb)
                  (qadd g.x si.xr) (qadd g.y si.yt),
      x := qadd g.x si.xo, y := qadd g.y si.yo }

/-- `sizeLoop` on the geometric part. -/
def sizeLoopG (h : Hooks) (sc : SplitChar)
    (recG : Geom → List FontControl → (Nat × Nat) × Geom) :
    List FontControl → Geom → Geom → Nat → Nat → Nat → (Nat × Nat) × Geom
  | [], g, _, _, lastIndex, lastSplits => ((lastIndex, lastSplits), g)
  | r :: rest, g, lsp, lsi, lastIndex, lastSplits =>
    let lastG := g
    let g := applyGeom h r g
    let splits := splitsSeen sc r
    if beyondG g then
      match sc with
      | .byte _ => ((lsi, lastSplits), lsp)
      | _ =>
          if 1 < (strPayload r).length then
            let res := recG lastG [r]
            ((res.1.1, lastSplits + res.1.2), res.2)
          else ((lastIndex, lastSplits), lastG)
    else
      let lsp := if splits ≠ 0 ∧ sc ≠ .noSplit then g else lsp
      let lsi := if splits ≠ 0 ∧ sc ≠ .noSplit then r.indexEnd else lsi
      sizeLoopG h sc recG rest g lsp lsi r.indexEnd (lastSplits + splits)

/-- `resetForSize` on the geometric part. -/
def resetG (limits : Option (ℚ × ℚ)) (g : Geom) : Geom :=
  { g with x := 0, y := 0, bounds := .empty,
           underline_pos := 0, underline_thickness := 0,
           limitx := some (match limits with | none => (0x7FFFFFFF : ℚ) | some l => l.1),
           limity := some (match limits with | none => (0x7FFFFFFF : ℚ) | some l => l.2) }

/-- `sizeAux` on the geometric part. -/
def sizeAuxG (h : Hooks) : Nat → Geom → List FontControl →
    Option FontSpacing → Option (ℚ × ℚ) → SplitChar → Bool →
    (Nat × Nat) × Geom
  | 0, g, seq, spacing, limits, sc, continued =>
      let g := if continued then g else resetG limits g
      sizeLoopG h sc (fun g' _ => ((0, 0), g'))
        (applySpacing seq spacing sc) g g 0 0 0
  | n + 1, g, seq, spacing, limits, sc, continued =>
      let g := if continued then g else resetG limits g
      sizeLoopG h sc (fun g' s => sizeAuxG h n g' s none none .everyByte true)
        (applySpacing seq spacing sc) g g 0 0 0

theorem select_colour_geom (h : Hooks) (c : FontContext)
    (bg fg fgoffset bgpal fgpal : Option Int) :
    geomOf (select_colour h c bg fg fgoffset bgpal fgpal) = geomOf c := by
  rcases bg with _ | u <;> rcases fg with _ | v <;> rcases fgoffset with _ | w <;>
    rcases bgpal with _ | s <;> rcases fgpal with _ | t <;> rfl

theorem beyond_geom (c : FontContext) :
    beyond_limits c = beyondG (geomOf c) := rfl

theorem recordSize_geom (h : Hooks) (r : FontControl) (c : FontContext) :
    recordSize h r c = recordSizeG h r (geomOf c) := by
  cases r <;> rfl

theorem applyRecord_geom (h : Hooks) (r : FontControl) (c : FontContext) :
    geomOf (applyRecord h r c) = applyGeom h r (geomOf c) := by
  cases r with
  | gcol s e fg bg off =>
      rw [← select_colour_geom h c bg fg off none none]
      rfl
  | rgb s e fg bg off =>
      rw [← select_colour_geom h c none none off bg fg]
      rfl
  | _ => rfl

theorem sizeLoop_geom (h : Hooks) (sc : SplitChar)
    (rec : FontContext → List FontControl → (Nat × Nat) × FontContext)
    (recG : Geom → List FontControl → (Nat × Nat) × Geom)
    (hrec : ∀ c l, (rec c l).1 = (recG (geomOf c) l).1 ∧
                   geomOf (rec c l).2 = (recG (geomOf c) l).2) :
    ∀ (l : List FontControl) (ctx lsp : FontContext) (lsi li lss : Nat),
      (sizeLoop h sc rec l ctx lsp lsi li lss).1
          = (sizeLoopG h sc recG l (geomOf ctx) (geomOf lsp) lsi li lss).1 ∧
      geomOf (sizeLoop h sc rec l ctx lsp lsi li lss).2
          = (sizeLoopG h sc recG l (geomOf ctx) (geomOf lsp) lsi li lss).2 := by
  intro l
  induction l with
  | nil => exact fun ctx lsp lsi li lss => ⟨rfl, rfl⟩
  | cons r rest ih =>
    intro ctx lsp lsi li lss
    show (sizeLoop h sc rec (r :: rest) ctx lsp lsi li lss).1 = _ ∧ _
    unfold sizeLoop sizeLoopG
    simp only []
    rw [← applyRecord_geom, ← beyond_geom]
    by_cases hb : beyond_limits (applyRecord h r ctx) = true
    · rw [if_pos hb, if_pos hb]
      cases sc with
      | byte c => exact ⟨rfl, rfl⟩
      | noSplit =>
          by_cases hl : 1 < (strPayload r).length
          · rw [if_pos hl, if_pos hl]
            exact ⟨by rw [(hrec ctx [r]).1], (hrec ctx [r]).2⟩
          · rw [if_neg hl, if_neg hl]
            exact ⟨rfl, rfl⟩
      | everyByte =>
          by_cases hl : 1 < (strPayload r).length
          · rw [if_pos hl, if_pos hl]
            exact ⟨by rw [(hrec ctx [r]).1], (hrec ctx [r]).2⟩
          · rw [if_neg hl, if_neg hl]
            exact ⟨rfl, rfl⟩
    · rw [if_neg hb, if_neg hb]
      by_cases hsp : splitsSeen sc r ≠ 0 ∧ sc ≠ SplitChar.noSplit
      · simp only [if_pos hsp]
        exact ih (applyRecord h r ctx) (applyRecord h r ctx) r.indexEnd r.indexEnd
          (lss + splitsSeen sc r)
      · simp only [if_neg hsp]
        exact ih (applyRecord h r ctx) lsp lsi r.indexEnd (lss + splitsSeen sc r)

theorem sizeAux_geom (h : Hooks) :
    ∀ (fuel : Nat) (c : FontContext) (seq : List FontControl)
      (spacing : Option FontSpacing) (limits : Option (ℚ × ℚ))
      (sc : SplitChar) (continued : Bool),
      (sizeAux h fuel c seq spacing limits sc continued).1
          = (sizeAuxG h fuel (geomOf c) seq spacing limits sc continued).1 ∧
      geomOf (sizeAux h fuel c seq spacing limits sc continued).2
          = (sizeAuxG h fuel (geomOf c) seq spacing limits sc continued).2 := by
  intro fuel
  induction fuel with
  | zero =>
    intro c seq spacing limits sc continued
    cases continued
    · exact sizeLoop_geom h sc _ _ (fun c' l => ⟨rfl, rfl⟩)
        (applySpacing seq spacing sc) (resetForSize limits c) (resetForSize limits c) 0 0 0
    · exact sizeLoop_geom h sc _ _ (fun c' l => ⟨rfl, rfl⟩)
        (applySpacing seq spacing sc) c c 0 0 0
  | succ n ih =>
    intro c seq spacing limits sc continued
    cases continued
    · exact sizeLoop_geom h sc _ _
        (fun c' l => ih c' l none none .everyByte true)
        (applySpacing seq spacing sc) (resetForSize limits c) (resetForSize limits c) 0 0 0
    · exact sizeLoop_geom h sc _ _
        (fun c' l => ih c' l none none .everyByte true)
        (applySpacing seq spacing sc) c c 0 0 0

theorem applyGeom_transform (h : Hooks) (r : FontControl) (g : Geom)
    (hr : r.isMatrix = false) : (applyGeom h r g).transform = g.transform := by
  cases r <;> first
    | rfl
    | exact absurd hr (by simp [FontControl.isMatrix])

theorem mem_concatMap {α β : Type} (f : α → List β) :
    ∀ (l : List α) (b : β), b ∈ concatMap f l → ∃ a ∈ l, b ∈ f a := by
  intro l
  induction l with
  | nil => intro b hb; cases hb
  | cons a l ih =>
    intro b hb
    rcases List.mem_append.1 hb with hb | hb
    · exact ⟨a, List.mem_cons_self a l, hb⟩
    · obtain ⟨a', ha', hb'⟩ := ih b hb
      exact ⟨a', List.mem_cons_of_mem a ha', hb'⟩

theorem emitParts_nonmatrix (delim : Option Nat) (start : Nat) :
    ∀ (parts : List (List Nat)) (offset : Nat) (r : FontControl),
      r ∈ emitParts delim start offset parts → r.isMatrix = false := by
  intro parts
  induction parts with
  | nil =>
    intro offset r hr
    simp only [emitParts] at hr
    exact absurd hr (List.not_mem_nil r)
  | cons s rest ih =>
    intro offset r hr
    simp only [emitParts] at hr
    repeat' split at hr
    all_goals
      try simp only [List.mem_append, List.mem_singleton, List.not_mem_nil,
        or_false, false_or] at hr
    all_goals
      repeat' rcases hr with hr | hr
    all_goals
      first
        | rfl
        | exact ih _ r hr

theorem emitSpaced_nonmatrix (wordSplit : Bool) (sp : FontSpacing) (start : Nat) :
    ∀ (parts : List (List Nat)) (offset : Nat) (r : FontControl),
      r ∈ emitSpaced wordSplit sp start offset parts → r.isMatrix = false := by
  intro parts
  induction parts with
  | nil =>
    intro offset r hr
    simp only [emitSpaced] at hr
    exact absurd hr (List.not_mem_nil r)
  | cons s rest ih =>
    intro offset r hr
    simp only [emitSpaced] at hr
    repeat' split at hr
    all_goals
      try simp only [List.mem_append, List.mem_singleton, List.not_mem_nil,
        or_false, false_or] at hr
    all_goals
      repeat' rcases hr with hr | hr
    all_goals
      first
        | rfl
        | exact ih _ r hr

theorem applySplitsOne_nonmatrix (sc : SplitChar) (ctrl : FontControl)
    (hc : ctrl.isMatrix = false) :
    ∀ r ∈ applySplitsOne sc ctrl, r.isMatrix = false := by
  intro r hr
  simp only [applySplitsOne] at hr
  repeat' split at hr
  all_goals
    first
      | (rcases List.mem_singleton.1 hr with rfl
         exact hc)
      | exact emitParts_nonmatrix _ _ _ _ r hr

theorem applySpacing_nonmatrix (seq : List FontControl)
    (spacing : Option FontSpacing) (sc : SplitChar)
    (hseq : ∀ r ∈ seq, r.isMatrix = false) :
    ∀ r ∈ applySpacing seq spacing sc, r.isMatrix = false := by
  intro r hr
  unfold applySpacing at hr
  obtain ⟨ctrl, hctrl, hr⟩ := mem_concatMap _ _ r hr
  obtain ⟨c0, hc0, hc1⟩ := mem_concatMap _ _ ctrl hctrl
  have hnm : ctrl.isMatrix = false :=
    applySplitsOne_nonmatrix sc c0 (hseq c0 hc0) ctrl hc1
  repeat' split at hr
  all_goals
    first
      | exact emitSpaced_nonmatrix _ _ _ _ _ r hr
      | (rcases List.mem_singleton.1 hr with rfl
         exact hnm)

theorem sizeLoopG_transform (h : Hooks) (sc : SplitChar)
    (recG : Geom → List FontControl → (Nat × Nat) × Geom)
    (hrec : ∀ g l, (∀ r ∈ l, r.isMatrix = false) →
        ((recG g l).2).transform = g.transform) :
    ∀ (l : List FontControl) (g lsp : Geom) (lsi li lss : Nat) (T : Matrix),
      (∀ r ∈ l, r.isMatrix = false) →
      g.transform = T → lsp.transform = T →
      ((sizeLoopG h sc recG l g lsp lsi li lss).2).transform = T := by
  intro l
  induction l with
  | nil =>
    intro g lsp lsi li lss T hl hg hlsp
    exact hg
  | cons r rest ih =>
    intro g lsp lsi li lss T hl hg hlsp
    have hr : r.isMatrix = false := hl r (List.mem_cons_self _ _)
    have hg' : (applyGeom h r g).transform = T := by
      rw [applyGeom_transform h r g hr]
      exact hg
    have hrl : ∀ x ∈ rest, x.isMatrix = false :=
      fun x hx => hl x (List.mem_cons_of_mem _ hx)
    unfold sizeLoopG
    by_cases hb : beyondG (applyGeom h r g) = true
    · rw [if_pos hb]
      cases sc with
      | byte c => exact hlsp
      | noSplit =>
          by_cases hlen : 1 < (strPayload r).length
          · rw [if_pos hlen]
            rw [hrec g [r] (by
              intro x hx
              rcases List.mem_singleton.1 hx with rfl
              exact hr)]
            exact hg
          · rw [if_neg hlen]
            exact hg
      | everyByte =>
          by_cases hlen : 1 < (strPayload r).length
          · rw [if_pos hlen]
            rw [hrec g [r] (by
              intro x hx
              rcases List.mem_singleton.1 hx with rfl
              exact hr)]
            exact hg
          · rw [if_neg hlen]
            exact hg
    · rw [if_neg hb]
      by_cases hsp : splitsSeen sc r ≠ 0 ∧ sc ≠ SplitChar.noSplit
      · simp only [if_pos hsp]
        exact ih (applyGeom h r g) (applyGeom h r g) _ _ _ T hrl hg' hg'
      · simp only [if_neg hsp]
        exact ih (applyGeom h r g) lsp _ _ _ T hrl hg' hlsp

theorem sizeAuxG_transform (h : Hooks) :
    ∀ (fuel : Nat) (g : Geom) (seq : List FontControl)
      (spacing : Option FontSpacing) (limits : Option (ℚ × ℚ))
      (sc : SplitChar) (continued : Bool),
      (∀ r ∈ seq, r.isMatrix = false) →
      ((sizeAuxG h fuel g seq spacing limits sc continued).2).transform
          = g.transform := by
  intro fuel
  induction fuel with
  | zero =>
    intro g seq spacing limits sc continued hseq
    cases continued
    · exact sizeLoopG_transform h sc _ (fun g' l _ => rfl)
        (applySpacing seq spacing sc) (resetG limits g) (resetG limits g)
        0 0 0 g.transform (applySpacing_nonmatrix seq spacing sc hseq) rfl rfl
    · exact sizeLoopG_transform h sc _ (fun g' l _ => rfl)
        (applySpacing seq spacing sc) g g 0 0 0 g.transform
        (applySpacing_nonmatrix seq spacing sc hseq) rfl rfl
  | succ n ih =>
    intro g seq spacing limits sc continued hseq
    cases continued
    · exact sizeLoopG_transform h sc _
        (fun g' l hl => ih g' l none none .everyByte true hl)
        (applySpacing seq spacing sc) (resetG limits g) (resetG limits g)
        0 0 0 g.transform (applySpacing_nonmatrix seq spacing sc hseq) rfl rfl
    · exact sizeLoopG_transform h sc _
        (fun g' l hl => ih g' l none none .everyByte true hl)
        (applySpacing seq spacing sc) g g 0 0 0 g.transform
        (applySpacing_nonmatrix seq spacing sc hseq) rfl rfl

theorem sizeAuxG_false (h : Hooks) (fuel : Nat) (g : Geom)
    (seq : List FontControl) (spacing : Option FontSpacing)
    (limits : Option (ℚ × ℚ)) (sc : SplitChar) :
    sizeAuxG h fuel g seq spacing limits sc false
      = sizeAuxG h fuel (resetG limits g) seq spacing limits sc true := by
  cases fuel <;> rfl

/-- C8 (amended): for every context, every pair of hooks and every
sequence that contains no Matrix record, calling `size(sequence)` twice
(with the `continued=False` reset both times) returns the same
`(terminating index, splits seen)` tuple from both calls and leaves the
same final bounds.  With a Matrix record the property fails, because the
reset does not restore the transform — see the counterexample. -/
theorem size_twice_agree_without_matrix (h : Hooks) (c : FontContext)
    (seq : List FontControl) (hm : ∀ r ∈ seq, r.isMatrix = false) :
    (size h c seq none none .noSplit false).1
        = (size h (size h c seq none none .noSplit false).2
            seq none none .noSplit false).1 ∧
    (size h c seq none none .noSplit false).2.bounds
        = (size h (size h c seq none none .noSplit false).2
            seq none none .noSplit false).2.bounds := by
  unfold size
  have hp1 := sizeAux_geom h 2 c seq none none .noSplit false
  have hp2 := sizeAux_geom h 2 (sizeAux h 2 c seq none none .noSplit false).2
    seq none none .noSplit false
  have htr : (geomOf (sizeAux h 2 c seq none none .noSplit false).2).transform
      = (geomOf c).transform := by
    rw [hp1.2]
    exact sizeAuxG_transform h 2 (geomOf c) seq none none .noSplit false hm
  have hreset : resetG none (geomOf (sizeAux h 2 c seq none none .noSplit false).2)
      = resetG none (geomOf c) := by
    unfold resetG
    rw [htr]
  have hG : sizeAuxG h 2 (geomOf (sizeAux h 2 c seq none none .noSplit false).2)
        seq none none .noSplit false
      = sizeAuxG h 2 (geomOf c) seq none none .noSplit false := by
    rw [sizeAuxG_false, sizeAuxG_false, hreset]
  constructor
  · rw [hp1.1, hp2.1, hG]
  · have e1 := congrArg Geom.bounds hp1.2
    have e2 := congrArg Geom.bounds hp2.2
    calc (sizeAux h 2 c seq none none .noSplit false).2.bounds
        = ((sizeAuxG h 2 (geomOf c) seq none none .noSplit false).2).bounds := e1
      _ = ((sizeAuxG h 2 (geomOf (sizeAux h 2 c seq none none .noSplit false).2)
            seq none none .noSplit false).2).bounds := by rw [hG]
      _ = (sizeAux h 2 (sizeAux h 2 c seq none none .noSplit false).2
            seq none none .noSplit false).2.bounds := e2.symm

/-- Witness for the amended C8 theorem at a concrete input. -/
theorem size_twice_agree_without_matrix_witness :
    (size defaultHooks {} [.str 0 1 [97]] none none .noSplit false).1
        = (size defaultHooks
            (size defaultHooks {} [.str 0 1 [97]] none none .noSplit false).2
            [.str 0 1 [97]] none none .noSplit false).1 ∧
    (size defaultHooks {} [.str 0 1 [97]] none none .noSplit false).2.bounds
        = (size defaultHooks
            (size defaultHooks {} [.str 0 1 [97]] none none .noSplit false).2
            [.str 0 1 [97]] none none .noSplit false).2.bounds :=
  size_twice_agree_without_matrix defaultHooks {} [.str 0 1 [97]] (by decide)

end RO
